import Mathlib

/-!
Verification of `src/lib/activities/activity-execution.js` (bpmn-engine):
a shallow embedding of the activity execution context.  The JS module is a
closure-based object; we embed it as an explicit state record `Ctx` whose
mutable closure variables (`pendingInbound`, `pendingOutbound`, `savedState`,
`resultData`, `inputResult`, `stopped`, and the `form`/`error`/`signal`/
`complete` properties attached by `postpone`) become fields, and each method
becomes a function threading the record.

External collaborators (`Environment`, parameter descriptors, `Form`,
the expression resolver) are not part of `src/`; they are modelled
abstractly by the contract surface listed in the spec (§6).  JS runtime
values are modelled by the inductive `Value`; JS objects are association
lists with unique keys manipulated through `setKey`/`assign`, mirroring
property assignment and `Object.assign`.  `undefined` is `Value.undefined`.
Randomness (`Math.random` inside `generateId`) is modelled by an explicit
oracle argument `rand : Nat` supplied at each construction that may consume
a draw.
-/

namespace ActivityExec

/-- JS runtime values, as far as the execution context manipulates them.
`form` models a bound `Form` instance (external collaborator): it records
the constructor argument (`form.formData`) and the `init(input, environment)`
arguments, per the spec contract. -/
inductive Value : Type where
  | undefined : Value
  | null : Value
  | bool (b : Bool) : Value
  | num (n : Int) : Value
  | str (s : String) : Value
  | list (xs : List Value) : Value
  | obj (fields : List (String × Value)) : Value
  | form (formData : Value) (input : List (String × Value)) (envScope : List (String × Value)) : Value

/-- A JS object: an association list of properties with unique keys. -/
abbrev Obj := List (String × Value)

/-- JS truthiness for the values we model (`undefined`, `null`, `false`, `0`
and `""` are falsy; every object/array is truthy). -/
def truthy : Value → Bool
  | .undefined => false
  | .null => false
  | .bool b => b
  | .num n => n != 0
  | .str s => s != ""
  | .list _ => true
  | .obj _ => true
  | .form _ _ _ => true

/-- Truthiness of a possibly-absent property (`undefined` when absent). -/
def truthyOpt : Option Value → Bool
  | none => false
  | some v => truthy v

/-- Property read on an object: first (hence only) entry with the key. -/
def getKey (o : Obj) (k : String) : Option Value :=
  (o.find? (fun p => p.1 == k)).map (fun p => p.2)

/-- Property write `o[k] = v`: replace the entry in place if the key exists,
else append it (JS objects keep insertion order). -/
def setKey : Obj → String → Value → Obj
  | [], k, v => [(k, v)]
  | p :: ps, k, v => if p.1 == k then (k, v) :: ps else p :: setKey ps k v

/-- The `Object.assign(target, src)`: copy each property of `src` onto `target`
in order, later writes winning. -/
def assign (target src : Obj) : Obj :=
  src.foldl (fun acc p => setKey acc p.1 p.2) target

/-- Value of the last binding of `k` in a property list (the one surviving
`assign` when the list is used as a source). -/
def lastVal (o : Obj) (k : String) : Option Value :=
  (o.reverse.find? (fun p => p.1 == k)).map (fun p => p.2)

/-- Property access `v.k` on an arbitrary value: `undefined` unless `v` is an
object holding the key.  (String index/length properties of primitives are
not modelled; no code path here reads them.) -/
def getKeyV (v : Value) (k : String) : Option Value :=
  match v with
  | .obj fs => getKey fs k
  | _ => none

/-- Fields contributed by a value used as an `Object.assign` source:
`undefined`/`null`/primitives contribute nothing, objects their properties. -/
def objFields : Value → Obj
  | .obj fs => fs
  | _ => []

/-- A sequence flow (edge).  `ref` is an object-identity token: JS `===` on
two edge objects compares references, so two distinct objects may carry the
same `id`; distinct `ref`s model distinct objects. -/
structure Flow where
  ref : Nat
  id : String
  isDefault : Bool
deriving DecidableEq, Repr

/-- The activity's `form` descriptor (only `form.formData` is read). -/
structure FormDef where
  formData : Value

/-- An input/output parameter descriptor, modelled by the contract surface
the context consumes: a `name`, `getInputValue(message, scope)` and
`getOutputValue(result, scope)` (external collaborator, spec §6). -/
structure Parameter where
  name : String
  getInputValue : Value → Obj → Value
  getOutputValue : Value → Obj → Value

/-- The `io` descriptor: optional lists of input/output parameters.
An empty list is a truthy array in JS, hence still "declared". -/
structure IoSpec where
  input : Option (List Parameter)
  output : Option (List Parameter)

/-- The activity (graph node) the context wraps, by the contract surface it
consumes.  `getActState` models the optional `activity.getState()` hook as
its (pure) return object; `none` means the hook is absent. -/
structure Activity where
  id : String
  type : String
  form : Option FormDef
  io : Option IoSpec
  inbound : List Flow
  outbound : List Flow
  getActState : Option Obj

/-- The external `Environment` collaborator, by its contract (spec §6):
`scope` is `getVariablesAndServices()`, and `cloneScope` gives the variable
scope of the environment derived by `clone(loopMessage)`. -/
structure Environment where
  scope : Obj
  cloneScope : Value → Obj

/-- The `environment.clone(loopMessage)`: a derived environment with a scoped
variable snapshot for one loop iteration. -/
def Environment.clone (e : Environment) (loopMessage : Value) : Environment :=
  { scope := e.cloneScope loopMessage, cloneScope := e.cloneScope }

/-- The completion handles `postpone` attaches to the context.  Each handle
body performs exactly one call to the supplied `executeCallback`; we model a
handle by the list of argument vectors it passes to that callback, so that
"invoked exactly once with args `a`" is the trace `[a]`. -/
structure Handles where
  error : Value → List (List Value)
  signal : Value → List (List Value)
  complete : List Value → List (List Value)

/-- The execution context: the closure state of one `execution(...)` call.
Fields after `id` are the mutable closure variables, at their initial
(JS `undefined`) values. -/
structure Ctx where
  activity : Activity
  message : Value
  environment : Environment
  inboundFlow : Option Flow
  rootFlow : Value
  id : String
  stopped : Bool := false
  pendingInbound : Option (List (Option Flow)) := none
  pendingOutbound : Option (List (Option Flow)) := none
  savedState : Option Value := none
  resultData : Value := .undefined
  inputResult : Option Obj := none
  handles : Option Handles := none
  form : Option Value := none

/-- Hex digit character, lowercase, as produced by JS `Number.toString(16)`. -/
def hexDigitChar (d : Nat) : Char :=
  if d < 10 then Char.ofNat (48 + d) else Char.ofNat (87 + d)

/-- Base-16 digits of `n`, least significant first, with explicit fuel so the
recursion is structural (the fuel `n` itself is always sufficient). -/
def hexDigitsRev : Nat → Nat → List Nat
  | 0, _ => []
  | _ + 1, 0 => []
  | fuel + 1, n + 1 => ((n + 1) % 16) :: hexDigitsRev fuel ((n + 1) / 16)

/-- Lowercase hexadecimal rendering of a natural number (JS `n.toString(16)`). -/
def hexString (n : Nat) : String :=
  if n = 0 then "0" else String.mk (((hexDigitsRev n n).map hexDigitChar).reverse)

/-- The `generateId()`: `Math.floor(Math.random() * (999999 - 11000)) + 11000`
rendered in hex.  The random draw is the explicit oracle `rand`; `% 988999`
maps it into the range `Math.floor` produces. -/
def generateId (rand : Nat) : String :=
  hexString (11000 + rand % (999999 - 11000))

/-- The guard `message && message.loop && !message.isSequential` deciding
whether this execution is one iteration of a parallel (non-sequential) loop. -/
def isParallelLoop (message : Value) : Bool :=
  truthy message && truthyOpt (getKeyV message "loop")
    && !truthyOpt (getKeyV message "isSequential")

/-- The module's exported `execution(activity, message, environment,
inboundFlow, rootFlow)` constructor: pure identity assignment, everything
else deferred.  `rand` is the oracle draw consumed iff `generateId` runs. -/
def execution (rand : Nat) (activity : Activity) (message : Value)
    (environment : Environment) (inboundFlow : Option Flow) (rootFlow : Value) : Ctx :=
  { activity, message, environment, inboundFlow, rootFlow,
    id :=
      if isParallelLoop message then activity.id ++ "_" ++ generateId rand
      else activity.id }

/-- The `flow.id === stateFlowId` for a persisted identifier value: strict
equality of the edge's string id with the stored value. -/
def matchesId (fl : Flow) (x : Value) : Bool :=
  match x with
  | .str s => fl.id == s
  | _ => false

/-- The `applyState(state)`: re-resolve persisted pending edge-identifier lists
against the live `inbound`/`outbound` edges.  `Array.find` yields `undefined`
(here `none`) for an identifier matching no live edge, and `Array.map` keeps
that placeholder in place.  A truthy non-array property would throw in JS;
that corner is not modelled (no claim reaches it). -/
def applyState (c : Ctx) (state : Value) : Ctx :=
  let c' :=
    match getKeyV state "pendingInbound" with
    | some (.list xs) =>
        let restored := xs.map (fun x => c.activity.inbound.find? (fun fl => matchesId fl x))
        { c with pendingInbound := some restored }
    | _ => c
  match getKeyV state "pendingOutbound" with
  | some (.list xs) =>
      let restored := xs.map (fun x => c'.activity.outbound.find? (fun fl => matchesId fl x))
      { c' with pendingOutbound := some restored }
  | _ => c'

/-- The `setState(state)`: stash an override mapping for the next `getState`. -/
def setState (c : Ctx) (state : Value) : Ctx :=
  { c with savedState := some state }

/-- The `setResult(data)`: store the raw behavior result. -/
def setResult (c : Ctx) (data : Value) : Ctx :=
  { c with resultData := data }

/-- The `getInput()`: cached input if already resolved; the environment's full
scope when no input parameters are declared (`io && io.input` falsy; this
branch does not cache); otherwise one resolved entry per declared parameter,
memoized in `inputResult`. -/
def getInput (c : Ctx) : Value × Ctx :=
  match c.inputResult with
  | some r => (Value.obj r, c)
  | none =>
    match c.activity.io.bind IoSpec.input with
    | none => (Value.obj c.environment.scope, c)
    | some parms =>
      let r := parms.foldl
        (fun acc p => setKey acc p.name (p.getInputValue c.message c.environment.scope)) []
      (Value.obj r, { c with inputResult := some r })

/-- The `getIteration(loopMessage)`: a brand-new context for the same activity
over a cloned, loop-scoped environment.  `rand` is the oracle draw for the
child's identity. -/
def getIteration (c : Ctx) (rand : Nat) (loopMessage : Value) : Ctx :=
  let iterationEnvironment := c.environment.clone loopMessage
  execution rand c.activity loopMessage iterationEnvironment c.inboundFlow c.rootFlow

/-- The `getOutput()`: the raw result unchanged when no output parameters are
declared; otherwise one resolved entry per declared output parameter against
`Object.assign({}, environment.getVariablesAndServices(), getInput())`
(the embedded `getInput()` call also triggers input memoization). -/
def getOutput (c : Ctx) : Value × Ctx :=
  match c.activity.io.bind IoSpec.output with
  | none => (c.resultData, c)
  | some parms =>
    let inp := (getInput c).1
    let c' := (getInput c).2
    let scope := assign (assign [] c'.environment.scope) (objFields inp)
    let r := parms.foldl
      (fun acc p => setKey acc p.name (p.getOutputValue c'.resultData scope)) []
    (Value.obj r, c')

/-- The `getForm()`: `new Form(form.formData)` then `formInstance.init(getInput(),
environment)`.  `Form` is an external collaborator (`require('./Form')`, not
under `src/`); the bound instance is modelled as a `Value.form` record of
those arguments.  The embedded `getInput()` call caches the input. -/
def getForm (c : Ctx) (fd : FormDef) : Value × Ctx :=
  let inp := (getInput c).1
  let c' := (getInput c).2
  (Value.form fd.formData (objFields inp) c'.environment.scope, c')

/-- The `getPendingInbound()`: cache if set; `[]` for no inbound edges; all
inbound edges when no triggering flow (neither of those two paths caches);
otherwise a copy of `inbound` with the first occurrence of the triggering
flow object (located by `indexOf`, i.e. reference equality) spliced out,
cached. -/
def getPendingInbound (c : Ctx) : List (Option Flow) × Ctx :=
  match c.pendingInbound with
  | some p => (p, c)
  | none =>
    if c.activity.inbound.isEmpty then ([], c)
    else
      match c.inboundFlow with
      | none => (c.activity.inbound.map some, c)
      | some f =>
        let result := (c.activity.inbound.erase f).map some
        (result, { c with pendingInbound := some result })

/-- The `getPendingOutbound()`: cache if set; otherwise a copy of `outbound`
and, when it has more than one edge and some edge is flagged default, that
(first) default edge spliced out and pushed to the end; cached. -/
def getPendingOutbound (c : Ctx) : List (Option Flow) × Ctx :=
  match c.pendingOutbound with
  | some p => (p, c)
  | none =>
    let po := c.activity.outbound
    let po' :=
      if 1 < po.length then
        match c.activity.outbound.find? (fun fl => fl.isDefault) with
        | some d => (po.erase d) ++ [d]
        | none => po
      else po
    let r := po'.map some
    (r, { c with pendingOutbound := some r })

/-- Identifier list of the pending-outbound entries, as mapped by
`getState`'s `pendingOutbound.map((f) => f.id)`.  On an `undefined`
placeholder (reachable after `applyState` with a stale identifier) the JS
property access `f.id` throws a `TypeError`; `none` models that throw. -/
def flowIdsValue : List (Option Flow) → Option (List Value)
  | [] => some []
  | none :: _ => none
  | some f :: xs => (flowIdsValue xs).map (fun ids => Value.str f.id :: ids)

/-- The state object of `getState` after the optional `state.form =
getForm()` step: the activity's own state (empty if the hook is absent)
with the form snapshot written onto it when a form is declared. -/
def getStateSt1 (c : Ctx) : Obj :=
  match c.activity.form with
  | some fd => setKey (c.activity.getActState.getD []) "form" (getForm c fd).1
  | none => c.activity.getActState.getD []

/-- The context after `getState`'s optional `getForm()` call (whose nested
`getInput()` may populate the input cache). -/
def getStateC1 (c : Ctx) : Ctx :=
  match c.activity.form with
  | some fd => (getForm c fd).2
  | none => c

/-- The state object built by `getState` before the final
`Object.assign(state, override, savedState)`: the activity's own state,
then `state.form = getForm()` if a form is declared, then
`state.pendingOutbound = getPendingOutbound().map(f => f.id)` if the
activity is a fork point.  `none` models the `TypeError` the id-mapping
throws when the pending list holds an `undefined` placeholder. -/
def getStateBase (c : Ctx) : Option Obj :=
  if 1 < c.activity.outbound.length then
    (flowIdsValue (getPendingOutbound (getStateC1 c)).1).map
      (fun ids => setKey (getStateSt1 c) "pendingOutbound" (Value.list ids))
  else some (getStateSt1 c)

/-- The `getState(override)` method: the activity's own state (empty if
the hook is absent), then `state.form = getForm()` if a form is declared,
then `state.pendingOutbound = getPendingOutbound().map(f => f.id)` if the
activity is a fork point (`pendingFork`, more than one outbound edge),
then `Object.assign(state, override, savedState)`.  `none` models the
`TypeError` the id-mapping throws when the pending list holds an
`undefined` placeholder (stale identifier restored by `applyState`). -/
def getState (c : Ctx) (override : Value) : Option (Value × Ctx) :=
  let c2 :=
    if 1 < c.activity.outbound.length then (getPendingOutbound (getStateC1 c)).2
    else getStateC1 c
  (getStateBase c).map (fun st =>
    (Value.obj (assign (assign st (objFields override))
        ((c2.savedState.map objFields).getD [])), c2))

/-- The `postpone(executeCallback)`: attach a freshly bound form (if declared),
install the `error`/`signal`/`complete` handles, and return the context
itself.  Each handle body performs exactly one `executeCallback` call:
`error(err)` with `(err)`, `signal(input)` with `(null, input)`,
`complete(...args)` with `(null, ...args)`; the `Handles` trace records the
argument vectors of those calls. -/
def installedHandles : Handles :=
  { error := fun err => [[err]]
    signal := fun input => [[Value.null, input]]
    complete := fun args => [Value.null :: args] }

def postpone (c : Ctx) : Ctx :=
  let c' :=
    match c.activity.form with
    | some fd =>
      let (fv, c'') := getForm c fd
      { c'' with form := some fv }
    | none => c
  { c' with handles := some installedHandles }

/-- The `stop()`: set the local advisory flag. -/
def stop (c : Ctx) : Ctx :=
  { c with stopped := true }

/-- The `isStopped()`: read the local advisory flag. -/
def isStopped (c : Ctx) : Bool :=
  c.stopped

/-! ### Auxiliary definitions for the specification theorems -/

/-- First-result choice on optional property values. -/
def orElseO : Option Value → Option Value → Option Value
  | some v, _ => some v
  | none, y => y

/-- Value of a little-endian base-16 digit list. -/
def fromHexDigits : List Nat → Nat
  | [] => 0
  | d :: ds => d + 16 * fromHexDigits ds

/-! ### Concrete fixtures used by witnesses and counterexamples -/

/-- Edge `A`: conditional flow, first in document order. -/
def fA : Flow := ⟨0, "A", false⟩

/-- Edge `B`: the flow flagged `isDefault`. -/
def fB : Flow := ⟨1, "B", true⟩

/-- Edge `C`: conditional flow, last in document order. -/
def fC : Flow := ⟨2, "C", false⟩

/-- Edge `D`: a second inbound flow. -/
def fD : Flow := ⟨3, "D", false⟩

/-- A distinct edge object carrying the same identifier as `fA`
(different `ref`, i.e. a different JS object). -/
def fA2 : Flow := ⟨9, "A", false⟩

/-- An input parameter resolving to the scope's `v` variable. -/
def pInp : Parameter :=
  { name := "inp"
    getInputValue := fun _ scope =>
      match getKey scope "v" with
      | some v => v
      | none => Value.undefined
    getOutputValue := fun _ _ => Value.undefined }

/-- The spec scenario's output parameter `result`, mapping raw result key `r`. -/
def pResult : Parameter :=
  { name := "result"
    getInputValue := fun _ _ => Value.undefined
    getOutputValue := fun res _ =>
      match getKeyV res "r" with
      | some v => v
      | none => Value.undefined }

/-- A concrete environment. -/
def envW : Environment :=
  { scope := [("v", Value.num 1), ("sv", Value.str "s")]
    cloneScope := fun _ => [("iter", Value.num 0)] }

/-- A fork-point activity: two inbound edges, three outbound edges of which
`fB` is the default, an own-state hook exposing `k` and `x`. -/
def actFork : Activity :=
  { id := "act", type := "task", form := none, io := none,
    inbound := [fA, fD], outbound := [fA, fB, fC],
    getActState := some [("k", Value.num 7), ("x", Value.num 0)] }

/-- An activity with declared input and output parameters. -/
def actParams : Activity :=
  { id := "io-act", type := "serviceTask",
    form := none,
    io := some { input := some [pInp], output := some [pResult] },
    inbound := [fA], outbound := [fA],
    getActState := none }

/-- An activity with a single inbound edge, for the identity-exclusion claim. -/
def actOneIn : Activity :=
  { id := "one-in", type := "task", form := none, io := none,
    inbound := [fA], outbound := [fA],
    getActState := none }

/-- Fork-point context triggered by inbound edge `fA`. -/
def cFork : Ctx := execution 0 actFork Value.undefined envW (some fA) Value.undefined

/-- Context over the parameterized activity. -/
def cParams : Ctx := execution 0 actParams Value.undefined envW none Value.undefined

/-- Context whose triggering flow object is not (reference-)equal to any
inbound edge, though `fA` carries the same identifier. -/
def cSameId : Ctx := execution 0 actOneIn Value.undefined envW (some fA2) Value.undefined

/-- Context over `actOneIn` with no triggering flow (restore target). -/
def cOneIn : Ctx := execution 0 actOneIn Value.undefined envW none Value.undefined

/-- A persisted state carrying both pending identifier lists, each with one
live identifier (`"A"`) and one stale identifier. -/
def stBoth : Value :=
  Value.obj [("pendingInbound", Value.list [Value.str "A", Value.str "nope"]),
             ("pendingOutbound", Value.list [Value.str "A", Value.str "bogus"])]

/-- A loop message in non-sequential (parallel) mode. -/
def loopMsgPar : Value := Value.obj [("loop", Value.bool true)]

/-- A loop message in sequential mode. -/
def loopMsgSeq : Value :=
  Value.obj [("loop", Value.bool true), ("isSequential", Value.bool true)]

/-! ### Association-list (JS object) algebra -/

theorem orElseO_none_right (x : Option Value) : orElseO x none = x := by
  cases x <;> rfl

theorem getKey_nil (k : String) : getKey [] k = none := rfl

theorem getKey_cons (p : String × Value) (ps : Obj) (k : String) :
    getKey (p :: ps) k = if p.1 == k then some p.2 else getKey ps k := by
  by_cases h : (p.1 == k) = true
  · simp [getKey, List.find?_cons_of_pos, h]
  · simp only [Bool.not_eq_true] at h
    simp [getKey, List.find?_cons_of_neg, h]

theorem getKey_setKey (o : Obj) (k k' : String) (v : Value) :
    getKey (setKey o k v) k' = if k' = k then some v else getKey o k' := by
  induction o with
  | nil =>
    simp only [setKey, getKey_cons, getKey_nil, beq_iff_eq]
    by_cases h : k' = k
    · rw [if_pos h.symm, if_pos h]
    · rw [if_neg (fun hh : k = k' => h hh.symm), if_neg h]
  | cons p ps ih =>
    show getKey (if (p.1 == k) = true then (k, v) :: ps else p :: setKey ps k v) k' = _
    by_cases h : p.1 = k
    · rw [if_pos (beq_iff_eq.mpr h), getKey_cons, getKey_cons]
      simp only [beq_iff_eq]
      by_cases h' : k' = k
      · rw [if_pos h'.symm, if_pos h']
      · have hpk' : ¬ p.1 = k' := fun hh => h' ((h ▸ hh : k = k').symm)
        rw [if_neg (fun hh : k = k' => h' hh.symm), if_neg h', if_neg hpk']
    · rw [if_neg (fun hb : (p.1 == k) = true => h (beq_iff_eq.mp hb)), getKey_cons,
        getKey_cons, ih]
      simp only [beq_iff_eq]
      by_cases h' : k' = k
      · rw [if_pos h', if_neg (fun hh : p.1 = k' => h (h' ▸ hh)), if_pos h']
      · rw [if_neg h', if_neg h']

theorem lastVal_nil (k : String) : lastVal [] k = none := rfl

theorem lastVal_cons (p : String × Value) (ps : Obj) (k : String) :
    lastVal (p :: ps) k =
      orElseO (lastVal ps k) (if p.1 == k then some p.2 else none) := by
  unfold lastVal
  rw [List.reverse_cons, List.find?_append]
  cases hf : ps.reverse.find? (fun p => p.1 == k) with
  | none =>
    by_cases h : (p.1 == k) = true <;>
      simp [orElseO, Option.orElse, List.find?, h]
  | some q =>
    simp [orElseO, Option.orElse, hf]

theorem assign_nil (a : Obj) : assign a [] = a := rfl

theorem getKey_assign (a b : Obj) (k : String) :
    getKey (assign a b) k = orElseO (lastVal b k) (getKey a k) := by
  induction b generalizing a with
  | nil => simp [assign_nil, lastVal_nil, orElseO]
  | cons p ps ih =>
    show getKey (assign (setKey a p.1 p.2) ps) k = _
    rw [ih, lastVal_cons, getKey_setKey]
    cases hl : lastVal ps k with
    | some v => simp [orElseO]
    | none =>
      by_cases h : p.1 = k
      · rw [if_pos (beq_iff_eq.mpr h), if_pos h.symm]
        rfl
      · rw [if_neg (fun hb : (p.1 == k) = true => h (beq_iff_eq.mp hb)),
          if_neg (fun hh : k = p.1 => h hh.symm)]
        rfl

theorem setKey_of_not_mem (o : Obj) (k : String) (v : Value)
    (h : k ∉ o.map Prod.fst) : setKey o k v = o ++ [(k, v)] := by
  induction o with
  | nil => rfl
  | cons p ps ih =>
    simp only [List.map_cons, List.mem_cons, not_or] at h
    have : (p.1 == k) ≠ true := fun hb => h.1 (beq_iff_eq.mp hb).symm
    simp only [setKey, if_neg this, List.cons_append, List.cons.injEq, true_and]
    exact ih h.2

theorem foldl_setKey_eq_map {β : Type} (f : β → String) (g : β → Value) :
    ∀ (l : List β) (acc : Obj), (∀ x ∈ l, f x ∉ acc.map Prod.fst) →
    (l.map f).Nodup →
    l.foldl (fun o x => setKey o (f x) (g x)) acc = acc ++ l.map (fun x => (f x, g x)) := by
  intro l
  induction l with
  | nil => intro acc _ _; simp
  | cons x xs ih =>
    intro acc hdis hnd
    rw [List.map_cons, List.nodup_cons] at hnd
    simp only [List.foldl_cons]
    rw [setKey_of_not_mem _ _ _ (hdis x (by simp))]
    rw [ih (acc ++ [(f x, g x)]) ?_ hnd.2]
    · simp
    · intro y hy
      simp only [List.map_append, List.mem_append, List.map_cons, List.map_nil,
        List.mem_singleton, not_or]
      refine ⟨hdis y (by simp [hy]), ?_⟩
      intro hfy
      exact hnd.1 (hfy ▸ List.mem_map_of_mem f hy)

/-! ### Hexadecimal rendering and string facts (for identity claims) -/

theorem hexDigitsRev_val : ∀ fuel n, n ≤ fuel → fromHexDigits (hexDigitsRev fuel n) = n := by
  intro fuel
  induction fuel with
  | zero =>
    intro n h
    have h0 : n = 0 := Nat.le_zero.mp h
    subst h0
    rfl
  | succ f ih =>
    intro n h
    match n with
    | 0 => rfl
    | m + 1 =>
      show (m + 1) % 16 + 16 * fromHexDigits (hexDigitsRev f ((m + 1) / 16)) = m + 1
      have h1 : (m + 1) / 16 ≤ f := by
        have := Nat.div_lt_self (Nat.succ_pos m) (show 1 < 16 by omega)
        omega
      rw [ih ((m + 1) / 16) h1]
      exact Nat.mod_add_div (m + 1) 16

theorem hexDigitsRev_lt : ∀ fuel n, ∀ d ∈ hexDigitsRev fuel n, d < 16 := by
  intro fuel
  induction fuel with
  | zero => intro n d hd; simp [hexDigitsRev] at hd
  | succ f ih =>
    intro n d hd
    match n with
    | 0 => simp [hexDigitsRev] at hd
    | m + 1 =>
      rw [show hexDigitsRev (f + 1) (m + 1)
          = ((m + 1) % 16) :: hexDigitsRev f ((m + 1) / 16) from rfl] at hd
      rcases List.mem_cons.mp hd with h | h
      · subst h; exact Nat.mod_lt _ (by omega)
      · exact ih _ d h

theorem hexDigitChar_inj :
    ∀ a, a < 16 → ∀ b, b < 16 → hexDigitChar a = hexDigitChar b → a = b := by decide

theorem map_hexDigitChar_inj : ∀ l1 l2 : List Nat, (∀ d ∈ l1, d < 16) → (∀ d ∈ l2, d < 16) →
    l1.map hexDigitChar = l2.map hexDigitChar → l1 = l2 := by
  intro l1
  induction l1 with
  | nil =>
    intro l2 _ _ h
    cases l2 with
    | nil => rfl
    | cons e es => simp at h
  | cons d ds ih =>
    intro l2 h1 h2 h
    cases l2 with
    | nil => simp at h
    | cons e es =>
      simp only [List.map_cons, List.cons.injEq] at h
      have hd : d = e := hexDigitChar_inj d (h1 d (by simp)) e (h2 e (by simp)) h.1
      rw [hd, ih es (fun x hx => h1 x (by simp [hx])) (fun x hx => h2 x (by simp [hx])) h.2]

theorem string_mk_data (l : List Char) : (String.mk l).data = l := rfl

theorem string_data_append (a b : String) : (a ++ b).data = a.data ++ b.data := by
  cases a
  cases b
  rfl

theorem string_eq_of_data (a b : String) (h : a.data = b.data) : a = b := by
  cases a
  cases b
  exact congrArg String.mk h

theorem string_append_assoc (a b c : String) : a ++ b ++ c = a ++ (b ++ c) := by
  apply string_eq_of_data
  rw [string_data_append, string_data_append, string_data_append, string_data_append,
    List.append_assoc]

theorem string_append_left_cancel (a s t : String) (h : a ++ s = a ++ t) : s = t := by
  apply string_eq_of_data
  have hd := congrArg String.data h
  rw [string_data_append, string_data_append] at hd
  exact List.append_cancel_left hd

theorem string_append_ne_self (a b : String) (hb : b.data ≠ []) : a ++ b ≠ a := by
  intro h
  have hd := congrArg (fun s => s.data.length) h
  simp only [string_data_append, List.length_append] at hd
  have h0 : b.data.length = 0 := by omega
  exact hb (List.length_eq_zero.mp h0)

theorem hexString_inj (m n : Nat) (hm : 0 < m) (hn : 0 < n) (h : hexString m = hexString n) :
    m = n := by
  unfold hexString at h
  rw [if_neg (Nat.pos_iff_ne_zero.mp hm), if_neg (Nat.pos_iff_ne_zero.mp hn)] at h
  have hdata : ((hexDigitsRev m m).map hexDigitChar).reverse
      = ((hexDigitsRev n n).map hexDigitChar).reverse := congrArg String.data h
  have hmap := List.reverse_injective hdata
  have hdig := map_hexDigitChar_inj _ _ (hexDigitsRev_lt m m) (hexDigitsRev_lt n n) hmap
  have hv := hexDigitsRev_val m m le_rfl
  rw [hdig, hexDigitsRev_val n n le_rfl] at hv
  exact hv.symm

theorem generateId_mod_inj (r1 r2 : Nat) (h : r1 % 988999 ≠ r2 % 988999) :
    generateId r1 ≠ generateId r2 := by
  intro he
  apply h
  have h1 : (999999 - 11000 : Nat) = 988999 := by norm_num
  unfold generateId at he
  rw [h1] at he
  have := hexString_inj _ _ (by omega) (by omega) he
  omega

/-! ### Behavioral helper lemmas about the execution context -/

theorem getPendingOutbound_cached (c : Ctx) (l : List (Option Flow))
    (h : c.pendingOutbound = some l) : getPendingOutbound c = (l, c) := by
  simp only [getPendingOutbound, h]

theorem getPendingOutbound_snd_cache (c : Ctx) (hfresh : c.pendingOutbound = none) :
    (getPendingOutbound c).2.pendingOutbound = some (getPendingOutbound c).1 := by
  simp only [getPendingOutbound, hfresh]

theorem getInput_snd_fields (c : Ctx) :
    (getInput c).2.activity = c.activity ∧ (getInput c).2.id = c.id ∧
    (getInput c).2.environment = c.environment ∧
    (getInput c).2.pendingInbound = c.pendingInbound ∧
    (getInput c).2.pendingOutbound = c.pendingOutbound ∧
    (getInput c).2.savedState = c.savedState ∧
    (getInput c).2.resultData = c.resultData ∧
    (getInput c).2.handles = c.handles := by
  cases hir : c.inputResult with
  | some r => simp [getInput, hir]
  | none =>
    cases hio : c.activity.io.bind IoSpec.input with
    | none => simp [getInput, hir, hio]
    | some parms => simp [getInput, hir, hio]

/-! ### C1 — default flow ordered last in the pending outbound set -/

/-- C1: for a context whose activity has more than one outbound edge,
`getPendingOutbound()` returns all outbound edges, with the edge flagged
`isDefault` (if any) moved to the end while the remaining edges keep their
original relative order, and a repeated call returns the same cached
ordering.  `hfresh` states the ordering has not been pre-set by
`applyState` (the compute-and-cache contract of the accessor). -/
theorem getPendingOutbound_default_last (c : Ctx)
    (hfresh : c.pendingOutbound = none)
    (hlen : 1 < c.activity.outbound.length) :
    (∀ d, c.activity.outbound.find? (fun fl => fl.isDefault) = some d →
      (getPendingOutbound c).1 = (c.activity.outbound.erase d ++ [d]).map some ∧
      ((getPendingOutbound c).1).Perm (c.activity.outbound.map some)) ∧
    (c.activity.outbound.find? (fun fl => fl.isDefault) = none →
      (getPendingOutbound c).1 = c.activity.outbound.map some) ∧
    getPendingOutbound (getPendingOutbound c).2 = getPendingOutbound c := by
  refine ⟨?_, ?_, ?_⟩
  · intro d hd
    have h1 : (getPendingOutbound c).1 = (c.activity.outbound.erase d ++ [d]).map some := by
      simp only [getPendingOutbound, hfresh, hd, hlen, if_true]
    refine ⟨h1, ?_⟩
    rw [h1]
    have hmem := List.mem_of_find?_eq_some hd
    have hperm : (c.activity.outbound.erase d ++ [d]).Perm c.activity.outbound :=
      (List.perm_append_singleton d _).trans (List.perm_cons_erase hmem).symm
    exact hperm.map some
  · intro hd
    simp only [getPendingOutbound, hfresh, hd, hlen, if_true]
  · rw [getPendingOutbound_cached _ _ (getPendingOutbound_snd_cache c hfresh)]

/-- Witness for C1, realizing the spec's scenario: outbound edges `A`
(conditional), `B` (default), `C` (conditional) give the ordering
`[A, C, B]`, equal across two calls. -/
theorem getPendingOutbound_default_last_w :
    (getPendingOutbound cFork).1 = [some fA, some fC, some fB] ∧
    ((getPendingOutbound cFork).1).Perm (cFork.activity.outbound.map some) ∧
    getPendingOutbound (getPendingOutbound cFork).2 = getPendingOutbound cFork := by
  have h := getPendingOutbound_default_last cFork rfl (by decide)
  refine ⟨?_, (h.1 fB (by decide)).2, h.2.2⟩
  rw [(h.1 fB (by decide)).1]
  decide

/-! ### C2 — pending inbound excludes exactly the triggering edge -/

/-- C2: a context constructed with a triggering inbound edge that is among
the activity's inbound edges gets exactly the inbound edges minus that
edge from `getPendingInbound()`; a context with no triggering inbound edge
gets all inbound edges.  `hfresh` states the set has not been pre-set by
`applyState`. -/
theorem getPendingInbound_excludes_trigger (c : Ctx)
    (hfresh : c.pendingInbound = none) :
    (∀ f, c.inboundFlow = some f → f ∈ c.activity.inbound →
      (getPendingInbound c).1 = (c.activity.inbound.erase f).map some) ∧
    (c.inboundFlow = none →
      (getPendingInbound c).1 = c.activity.inbound.map some) := by
  constructor
  · intro f hf hmem
    have hne : c.activity.inbound.isEmpty = false := by
      cases hI : c.activity.inbound with
      | nil => rw [hI] at hmem; cases hmem
      | cons x xs => simp [hI]
    simp only [getPendingInbound, hfresh, hf, hne, Bool.false_eq_true, if_false]
  · intro hnone
    cases hI : c.activity.inbound with
    | nil => simp [getPendingInbound, hfresh, hnone, hI]
    | cons x xs => simp [getPendingInbound, hfresh, hnone, hI]

/-- Witness for C2: inbound edges `[A, D]` with triggering edge `A` leave
exactly `[D]` pending. -/
theorem getPendingInbound_excludes_trigger_w :
    (getPendingInbound cFork).1 = [some fD] := by
  have h := (getPendingInbound_excludes_trigger cFork rfl).1 fA rfl (by decide)
  rw [h]
  decide

/-! ### C10 — trigger exclusion is by object identity, not identifier -/

/-- C10: `getPendingInbound` excludes the triggering edge by object
identity; a triggering flow object that is not (reference-)equal to any
element of the inbound list — even one carrying the same identifier —
removes nothing, and all inbound edges are returned. -/
theorem getPendingInbound_ref_identity (c : Ctx) (f : Flow)
    (hfresh : c.pendingInbound = none) (htrig : c.inboundFlow = some f)
    (hnot : f ∉ c.activity.inbound) :
    (getPendingInbound c).1 = c.activity.inbound.map some := by
  by_cases hI : c.activity.inbound.isEmpty = true
  · have hnil : c.activity.inbound = [] := by
      cases hII : c.activity.inbound with
      | nil => rfl
      | cons x xs => rw [hII] at hI; simp at hI
    simp [getPendingInbound, hfresh, htrig, hnil]
  · have hne : c.activity.inbound.isEmpty = false := by
      cases hb : c.activity.inbound.isEmpty
      · rfl
      · exact absurd hb hI
    simp only [getPendingInbound, hfresh, htrig, hne, Bool.false_eq_true, if_false]
    rw [List.erase_of_not_mem hnot]

/-- Witness for C10: inbound is `[A]` (object `⟨0, "A"⟩`), the trigger is a
distinct object `⟨9, "A"⟩` with the same identifier `"A"`; nothing is
removed. -/
theorem getPendingInbound_ref_identity_w :
    (getPendingInbound cSameId).1 = cSameId.activity.inbound.map some ∧
    (getPendingInbound cSameId).1 = [some fA] :=
  ⟨getPendingInbound_ref_identity cSameId fA2 rfl rfl (by decide),
   by rw [getPendingInbound_ref_identity cSameId fA2 rfl rfl (by decide)]; decide⟩

/-! ### C6 — postpone installs single-shot completion handles -/

/-- C6: `postpone(cb)` installs the `error`/`signal`/`complete` handles on
the context and returns the context itself (same identity, activity,
environment, result and saved state, now carrying the handles).  Invoking a
handle once performs exactly one call of the supplied completion callback:
`error(err)` passes `(err)`, `signal(input)` passes `(null, input)`, and
`complete(...values)` forwards `(null, ...values)` — the trace of callback
invocations each handle produces is the singleton of that argument vector,
so e.g. `signal({value: 42})` makes `cb` receive `(null, {value: 42})`
exactly once. -/
theorem postpone_installs_handles (c : Ctx) (cb : List Value → List Value)
    (err input : Value) (args : List Value) :
    (postpone c).handles = some installedHandles ∧
    (installedHandles.error err).map cb = [cb [err]] ∧
    (installedHandles.signal input).map cb = [cb [Value.null, input]] ∧
    (installedHandles.complete args).map cb = [cb (Value.null :: args)] ∧
    (postpone c).id = c.id ∧ (postpone c).activity = c.activity ∧
    (postpone c).environment = c.environment ∧
    (postpone c).resultData = c.resultData ∧
    (postpone c).savedState = c.savedState := by
  have hsnd := getInput_snd_fields c
  cases hf : c.activity.form with
  | none =>
    simp [postpone, hf, installedHandles]
  | some fd =>
    simp [postpone, hf, installedHandles, getForm, hsnd.2.1, hsnd.1, hsnd.2.2.1,
      hsnd.2.2.2.2.2.2.1, hsnd.2.2.2.2.2.1]

/-! ### C3 — execution identity and parallel-loop suffixing -/

/-- C3 counterexample: the claim that each `getIteration` call with a
non-sequential loop message yields a *distinct* suffixed identity is false
on the code: `generateId` draws from `Math.random`, and two calls whose
draws coincide (possible, the generator's space is small and draws are
independent) produce the same suffix, hence the same id — here both calls
consume the draw `0`. -/
theorem getIteration_identity_collision :
    ¬ (∀ r1 r2 : Nat,
        (getIteration cFork r1 loopMsgPar).id ≠ (getIteration cFork r2 loopMsgPar).id) :=
  fun h => h 0 0 rfl

/-- C3 amended: a context's id equals the activity id unless the triggering
message has a loop and is not sequential, in which case the id is the
activity id, an underscore and the random suffix — hence never equal to the
bare activity id; `getIteration` constructs such a context, and two
parallel-loop iterations have distinct ids whenever their random draws
differ modulo the generator's range (distinctness is not guaranteed across
arbitrary draws, which may repeat). -/
theorem execution_identity (c : Ctx) (r r' : Nat) (a : Activity) (m : Value)
    (e : Environment) (inF : Option Flow) (rootF : Value) :
    (isParallelLoop m = false → (execution r a m e inF rootF).id = a.id) ∧
    (isParallelLoop m = true →
      (execution r a m e inF rootF).id = a.id ++ "_" ++ generateId r ∧
      (execution r a m e inF rootF).id ≠ a.id) ∧
    ((getIteration c r m).id
      = (execution r c.activity m (c.environment.clone m) c.inboundFlow c.rootFlow).id) ∧
    (isParallelLoop m = true → r % 988999 ≠ r' % 988999 →
      (getIteration c r m).id ≠ (getIteration c r' m).id) := by
  refine ⟨?_, ?_, rfl, ?_⟩
  · intro hm
    simp [execution, hm]
  · intro hm
    refine ⟨by simp [execution, hm], ?_⟩
    simp only [execution, hm, if_true]
    rw [string_append_assoc]
    apply string_append_ne_self
    rw [string_data_append]
    simp
  · intro hm hr
    show (execution r c.activity m _ _ _).id ≠ (execution r' c.activity m _ _ _).id
    simp only [execution, hm, if_true]
    intro he
    rw [string_append_assoc, string_append_assoc] at he
    have h1 := string_append_left_cancel _ _ _ he
    have h2 := string_append_left_cancel _ _ _ h1
    exact generateId_mod_inj r r' hr h2

/-- Witness for the amended C3: with distinct draws `0` and `1` two parallel
iterations get distinct suffixed ids, and a sequential loop message reuses
the bare activity id. -/
theorem execution_identity_w :
    isParallelLoop loopMsgPar = true ∧
    (0 : Nat) % 988999 ≠ 1 % 988999 ∧
    isParallelLoop loopMsgSeq = false ∧
    (getIteration cFork 0 loopMsgPar).id ≠ (getIteration cFork 1 loopMsgPar).id ∧
    (execution 5 actFork loopMsgSeq envW none Value.undefined).id = actFork.id ∧
    (execution 0 actFork loopMsgPar envW none Value.undefined).id ≠ actFork.id := by
  refine ⟨by decide, by decide, by decide, ?_, ?_, ?_⟩
  · exact (execution_identity cFork 0 1 actFork loopMsgPar envW none
      Value.undefined).2.2.2 (by decide) (by decide)
  · exact (execution_identity cFork 0 1 actFork loopMsgSeq envW none
      Value.undefined).1 (by decide)
  · exact ((execution_identity cFork 0 1 actFork loopMsgPar envW none
      Value.undefined).2.1 (by decide)).2

/-! ### C4 — input resolution and memoization -/

theorem getInput_cached (c : Ctx) (r : Obj) (h : c.inputResult = some r) :
    getInput c = (Value.obj r, c) := by
  simp only [getInput, h]

/-- C4: with no declared input parameters `getInput()` returns the
environment's full variable+service scope (delegating to the external
environment on every call, context unchanged); with declared parameters it
returns a mapping with exactly one entry per declared parameter name, each
resolved against the message and the environment scope, and the result is
memoized — the second call returns the identical cached object and the
identical context. -/
theorem getInput_spec (c : Ctx) (hfresh : c.inputResult = none) :
    (c.activity.io.bind IoSpec.input = none →
      getInput c = (Value.obj c.environment.scope, c)) ∧
    (∀ parms, c.activity.io.bind IoSpec.input = some parms →
      (parms.map Parameter.name).Nodup →
      (getInput c).1 = Value.obj (parms.map (fun p =>
        (p.name, p.getInputValue c.message c.environment.scope))) ∧
      (getInput c).2.inputResult = some (parms.map (fun p =>
        (p.name, p.getInputValue c.message c.environment.scope))) ∧
      getInput (getInput c).2 = ((getInput c).1, (getInput c).2)) := by
  constructor
  · intro h
    simp [getInput, hfresh, h]
  · intro parms hp hnd
    have hfold : parms.foldl
        (fun acc p => setKey acc p.name (p.getInputValue c.message c.environment.scope)) []
        = parms.map (fun p => (p.name, p.getInputValue c.message c.environment.scope)) := by
      have h := foldl_setKey_eq_map (fun p : Parameter => p.name)
        (fun p => p.getInputValue c.message c.environment.scope) parms [] (by simp) hnd
      simpa using h
    have hfst : (getInput c).1 = Value.obj (parms.map (fun p =>
        (p.name, p.getInputValue c.message c.environment.scope))) := by
      simp [getInput, hfresh, hp, hfold]
    have hca : (getInput c).2.inputResult = some (parms.map (fun p =>
        (p.name, p.getInputValue c.message c.environment.scope))) := by
      simp [getInput, hfresh, hp, hfold]
    refine ⟨hfst, hca, ?_⟩
    rw [getInput_cached _ _ hca, hfst]

/-- Witness for C4: the declared parameter `inp` resolves to the scope's
variable `v = 1`; the second call returns the identical memoized pair. -/
theorem getInput_spec_w :
    (getInput cParams).1 = Value.obj [("inp", Value.num 1)] ∧
    getInput (getInput cParams).2 = ((getInput cParams).1, (getInput cParams).2) := by
  have h := (getInput_spec cParams rfl).2 [pInp] rfl (by decide)
  refine ⟨?_, h.2.2⟩
  rw [h.1]
  rfl

/-! ### C5 — output resolution over the merged env ∪ input scope -/

/-- C5: in a context holding the raw result `d` (as stored by
`setResult(data)`), `getOutput()` returns `d` unchanged when no output
parameters are declared; with declared output parameters it returns a
mapping with one entry per declared parameter, each resolved from the raw
result against the merged scope `Object.assign({}, environment scope,
resolved input)`, in which the resolved input wins over the environment on
key collision. -/
theorem getOutput_spec (c : Ctx) (d : Value) (hd : c.resultData = d) :
    (c.activity.io.bind IoSpec.output = none → (getOutput c).1 = d) ∧
    (∀ parms, c.activity.io.bind IoSpec.output = some parms →
      (parms.map Parameter.name).Nodup →
      (getOutput c).1 = Value.obj (parms.map (fun p =>
        (p.name, p.getOutputValue d (assign (assign [] c.environment.scope)
          (objFields (getInput c).1))))) ∧
      (∀ k v, lastVal (objFields (getInput c).1) k = some v →
        getKey (assign (assign [] c.environment.scope)
          (objFields (getInput c).1)) k = some v)) := by
  constructor
  · intro h
    simp [getOutput, h, hd]
  · intro parms hp hnd
    have hsnd := getInput_snd_fields c
    have henv : (getInput c).2.environment = c.environment := hsnd.2.2.1
    have hres : (getInput c).2.resultData = d := hsnd.2.2.2.2.2.2.1.trans hd
    refine ⟨?_, ?_⟩
    · have hfold := foldl_setKey_eq_map (fun p : Parameter => p.name)
        (fun p => p.getOutputValue d (assign (assign [] c.environment.scope)
          (objFields (getInput c).1))) parms [] (by simp) hnd
      simp only [getOutput, hp]
      rw [hres, henv, hfold]
      simp
    · intro k v hv
      rw [getKey_assign, hv]
      rfl

/-- Witness for C5, realizing the spec scenario: one declared output
parameter `result` mapping raw key `r`; `setResult({r: 10})` then
`getOutput()` yields `{result: 10}`. -/
theorem getOutput_spec_w :
    (getOutput (setResult cParams (Value.obj [("r", Value.num 10)]))).1
      = Value.obj [("result", Value.num 10)] := by
  have h := (getOutput_spec (setResult cParams (Value.obj [("r", Value.num 10)]))
      (Value.obj [("r", Value.num 10)]) rfl).2 [pResult] rfl (by decide)
  rw [h.1]
  rfl

/-! ### C7 — state snapshot precedence -/

theorem getPendingOutbound_snd_fields (c : Ctx) :
    (getPendingOutbound c).2.savedState = c.savedState ∧
    (getPendingOutbound c).2.activity = c.activity ∧
    (getPendingOutbound c).2.environment = c.environment ∧
    (getPendingOutbound c).2.inputResult = c.inputResult := by
  cases h : c.pendingOutbound with
  | some l => simp [getPendingOutbound, h]
  | none => simp [getPendingOutbound, h]

theorem getPendingOutbound_fst_compute (c : Ctx) (h : c.pendingOutbound = none) :
    (getPendingOutbound c).1 =
      (if 1 < c.activity.outbound.length then
        match c.activity.outbound.find? (fun fl => fl.isDefault) with
        | some d => c.activity.outbound.erase d ++ [d]
        | none => c.activity.outbound
      else c.activity.outbound).map some := by
  simp only [getPendingOutbound, h]

theorem getPendingOutbound_fst_congr (c c' : Ctx) (ha : c.activity = c'.activity)
    (hp : c.pendingOutbound = c'.pendingOutbound) :
    (getPendingOutbound c).1 = (getPendingOutbound c').1 := by
  cases hpo : c'.pendingOutbound with
  | some l =>
    rw [getPendingOutbound_cached c l (hp.trans hpo),
      getPendingOutbound_cached c' l hpo]
  | none =>
    rw [getPendingOutbound_fst_compute c (hp.trans hpo),
      getPendingOutbound_fst_compute c' hpo, ha]

/-- The context after `getState`'s optional `getForm` call keeps the
activity, the pending-outbound cache and the saved state of `c`. -/
theorem getStateC1_fields (c : Ctx) :
    (getStateC1 c).activity = c.activity ∧
    (getStateC1 c).pendingOutbound = c.pendingOutbound ∧
    (getStateC1 c).savedState = c.savedState := by
  have hsnd := getInput_snd_fields c
  cases hf : c.activity.form with
  | none => simp [getStateC1, hf]
  | some fd =>
    simp only [getStateC1, hf]
    exact ⟨hsnd.1, hsnd.2.2.2.2.1, hsnd.2.2.2.2.2.1⟩

theorem flowIdsValue_cons_some (g : Flow) (xs : List (Option Flow)) :
    flowIdsValue (some g :: xs)
      = (flowIdsValue xs).map (fun ids => Value.str g.id :: ids) := rfl

/-- A single `undefined` placeholder anywhere in the pending list makes the
id-mapping throw. -/
theorem flowIdsValue_of_none_mem (l : List (Option Flow)) (h : none ∈ l) :
    flowIdsValue l = none := by
  induction l with
  | nil => cases h
  | cons x xs ih =>
    cases x with
    | none => rfl
    | some g =>
      rcases List.mem_cons.mp h with h1 | h2
      · exact Option.noConfusion h1
      · rw [flowIdsValue_cons_some, ih h2]
        rfl

/-- A pending list of live edges (no placeholders) is mapped to its
identifier list without throwing. -/
theorem flowIdsValue_isSome_of (l : List (Option Flow))
    (h : ∀ x ∈ l, x.isSome) : ∃ ids, flowIdsValue l = some ids := by
  induction l with
  | nil => exact ⟨[], rfl⟩
  | cons x xs ih =>
    cases x with
    | none => exact absurd (h none (by simp)) (by simp)
    | some g =>
      rcases ih (fun y hy => h y (by simp [hy])) with ⟨ids, hi⟩
      refine ⟨Value.str g.id :: ids, ?_⟩
      rw [flowIdsValue_cons_some, hi]
      rfl

/-- The context `getState` returns on success (after the optional form
binding and pending-outbound computation) keeps the saved state of `c`. -/
theorem getState_c2_savedState (c : Ctx) :
    (if 1 < c.activity.outbound.length
      then (getPendingOutbound (getStateC1 c)).2
      else getStateC1 c).savedState = c.savedState := by
  have hc1 := getStateC1_fields c
  split
  · exact (getPendingOutbound_snd_fields _).1.trans hc1.2.2
  · exact hc1.2.2

/-- Successful `getState`: with the base object built, the snapshot is the
base merged under the override and the saved state. -/
theorem getState_some (c : Ctx) (override : Value) (base : Obj)
    (hb : getStateBase c = some base) :
    getState c override = some
      (Value.obj (assign (assign base (objFields override))
        ((c.savedState.map objFields).getD [])),
       if 1 < c.activity.outbound.length
         then (getPendingOutbound (getStateC1 c)).2 else getStateC1 c) := by
  simp only [getState, hb, Option.map_some']
  rw [getState_c2_savedState]

/-- Throwing `getState`: a failed base build propagates as the thrown
`TypeError`. -/
theorem getState_none_of_base (c : Ctx) (override : Value)
    (hb : getStateBase c = none) : getState c override = none := by
  simp only [getState, hb, Option.map_none']

theorem getStateBase_not_fork (c : Ctx) (hfork : ¬ 1 < c.activity.outbound.length) :
    getStateBase c = some (getStateSt1 c) := by
  unfold getStateBase
  rw [if_neg hfork]

theorem getStateBase_fork (c : Ctx) (hfork : 1 < c.activity.outbound.length)
    (ids : List Value) (hids : flowIdsValue (getPendingOutbound c).1 = some ids) :
    getStateBase c = some (setKey (getStateSt1 c) "pendingOutbound" (Value.list ids)) := by
  have hc1 := getStateC1_fields c
  unfold getStateBase
  rw [if_pos hfork,
    getPendingOutbound_fst_congr (getStateC1 c) c hc1.1 hc1.2.1, hids,
    Option.map_some']

/-- At a fork point whose pending list holds an `undefined` placeholder the
id-mapping of `getState` throws, faithfully to the source's `TypeError`. -/
theorem getStateBase_throw (c : Ctx) (hfork : 1 < c.activity.outbound.length)
    (hmem : none ∈ (getPendingOutbound c).1) : getStateBase c = none := by
  have hc1 := getStateC1_fields c
  unfold getStateBase
  rw [if_pos hfork,
    getPendingOutbound_fst_congr (getStateC1 c) c hc1.1 hc1.2.1,
    flowIdsValue_of_none_mem _ hmem, Option.map_none']

/-- Shape of a successfully built base object. -/
theorem getStateBase_shape (c : Ctx) (base : Obj) (hb : getStateBase c = some base) :
    (¬ 1 < c.activity.outbound.length ∧ base = getStateSt1 c) ∨
    (1 < c.activity.outbound.length ∧ ∃ ids,
      flowIdsValue (getPendingOutbound c).1 = some ids ∧
      base = setKey (getStateSt1 c) "pendingOutbound" (Value.list ids)) := by
  by_cases hfork : 1 < c.activity.outbound.length
  · right
    refine ⟨hfork, ?_⟩
    cases hids : flowIdsValue (getPendingOutbound c).1 with
    | none =>
      have hc1 := getStateC1_fields c
      unfold getStateBase at hb
      rw [if_pos hfork,
        getPendingOutbound_fst_congr (getStateC1 c) c hc1.1 hc1.2.1, hids,
        Option.map_none'] at hb
      exact Option.noConfusion hb
    | some ids =>
      rw [getStateBase_fork c hfork ids hids] at hb
      exact ⟨ids, rfl, (Option.some.inj hb).symm⟩
  · left
    rw [getStateBase_not_fork c hfork] at hb
    exact ⟨hfork, (Option.some.inj hb).symm⟩

theorem getStateSt1_other (c : Ctx) (k : String) (h1 : k ≠ "form") :
    getKey (getStateSt1 c) k = getKey (c.activity.getActState.getD []) k := by
  cases hf : c.activity.form with
  | none => simp [getStateSt1, hf]
  | some fd =>
    simp only [getStateSt1, hf]
    rw [getKey_setKey, if_neg h1]

/-- On a declared form the built state carries the bound form snapshot. -/
theorem getStateSt1_form (c : Ctx) (fd : FormDef) (hf : c.activity.form = some fd) :
    getKey (getStateSt1 c) "form"
      = some (Value.form fd.formData (objFields (getInput c).1)
          c.environment.scope) := by
  have hsnd := getInput_snd_fields c
  simp only [getStateSt1, hf]
  rw [getKey_setKey, if_pos rfl]
  show some (Value.form fd.formData (objFields (getInput c).1)
    (getInput c).2.environment.scope) = _
  rw [hsnd.2.2.1]

/-- Keys other than `pendingOutbound` fall through the fork step of a
successfully built base. -/
theorem getStateBase_some_getKey (c : Ctx) (base : Obj) (k : String)
    (hb : getStateBase c = some base) (h2 : k ≠ "pendingOutbound") :
    getKey base k = getKey (getStateSt1 c) k := by
  rcases getStateBase_shape c base hb with ⟨_, rfl⟩ | ⟨_, ids, _, rfl⟩
  · rfl
  · rw [getKey_setKey, if_neg h2]

/-- C7: `getState(override)` merges the activity's own state (empty when
the hook is absent), the form snapshot (only when a form is declared), the
`pendingOutbound` identifier list (only when the activity has more than one
outbound edge), the `override` argument, and the state stashed via
`setState`, in that order — so `setState` has the highest precedence, the
override the next, while untouched keys fall through to the activity's own
state.  The snapshot is produced whenever the pending-outbound list holds
no `undefined` placeholder (in particular for every context not restored
from a stale-identifier `applyState`); at a fork point whose pending list
does hold a placeholder, `getState` throws (`= none`), faithfully to the
`TypeError` the source raises at `f.id`. -/
theorem getState_spec (c : Ctx) (override : Value) :
    ((¬ 1 < c.activity.outbound.length) ∨ (∀ x ∈ (getPendingOutbound c).1, x.isSome) →
      ∃ st c2, getState c override = some (st, c2)) ∧
    (1 < c.activity.outbound.length → none ∈ (getPendingOutbound c).1 →
      getState c override = none) ∧
    (∀ st c2, getState c override = some (st, c2) →
      (∀ k v, lastVal ((c.savedState.map objFields).getD []) k = some v →
        getKey (objFields st) k = some v) ∧
      (∀ k v, lastVal ((c.savedState.map objFields).getD []) k = none →
        lastVal (objFields override) k = some v →
        getKey (objFields st) k = some v) ∧
      (∀ k, lastVal ((c.savedState.map objFields).getD []) k = none →
        lastVal (objFields override) k = none → k ≠ "form" → k ≠ "pendingOutbound" →
        getKey (objFields st) k = getKey (c.activity.getActState.getD []) k) ∧
      (∀ fd, c.activity.form = some fd →
        lastVal ((c.savedState.map objFields).getD []) "form" = none →
        lastVal (objFields override) "form" = none →
        getKey (objFields st) "form"
          = some (Value.form fd.formData (objFields (getInput c).1)
              c.environment.scope)) ∧
      (c.activity.form = none →
        lastVal ((c.savedState.map objFields).getD []) "form" = none →
        lastVal (objFields override) "form" = none →
        getKey (objFields st) "form" = getKey (c.activity.getActState.getD []) "form") ∧
      (∀ ids, 1 < c.activity.outbound.length →
        lastVal ((c.savedState.map objFields).getD []) "pendingOutbound" = none →
        lastVal (objFields override) "pendingOutbound" = none →
        flowIdsValue (getPendingOutbound c).1 = some ids →
        getKey (objFields st) "pendingOutbound" = some (Value.list ids)) ∧
      (¬ 1 < c.activity.outbound.length →
        lastVal ((c.savedState.map objFields).getD []) "pendingOutbound" = none →
        lastVal (objFields override) "pendingOutbound" = none →
        getKey (objFields st) "pendingOutbound"
          = getKey (c.activity.getActState.getD []) "pendingOutbound")) := by
  refine ⟨?_, ?_, ?_⟩
  · intro h
    rcases h with hfork | hlive
    · exact ⟨_, _, getState_some c override _ (getStateBase_not_fork c hfork)⟩
    · rcases flowIdsValue_isSome_of _ hlive with ⟨ids, hids⟩
      by_cases hfork : 1 < c.activity.outbound.length
      · exact ⟨_, _, getState_some c override _ (getStateBase_fork c hfork ids hids)⟩
      · exact ⟨_, _, getState_some c override _ (getStateBase_not_fork c hfork)⟩
  · intro hfork hmem
    exact getState_none_of_base c override (getStateBase_throw c hfork hmem)
  · intro st c2 hok
    cases hb : getStateBase c with
    | none =>
      rw [getState_none_of_base c override hb] at hok
      exact Option.noConfusion hok
    | some base =>
      rw [getState_some c override base hb] at hok
      have hst : st = Value.obj (assign (assign base (objFields override))
          ((c.savedState.map objFields).getD [])) :=
        ((Prod.mk.injEq _ _ _ _).mp (Option.some.inj hok)).1.symm
      subst hst
      have hkey : ∀ k, getKey (objFields (Value.obj
          (assign (assign base (objFields override))
            ((c.savedState.map objFields).getD [])))) k
          = orElseO (lastVal ((c.savedState.map objFields).getD []) k)
            (orElseO (lastVal (objFields override) k) (getKey base k)) := by
        intro k
        show getKey (assign (assign base (objFields override))
          ((c.savedState.map objFields).getD [])) k = _
        rw [getKey_assign, getKey_assign]
      refine ⟨?_, ?_, ?_, ?_, ?_, ?_, ?_⟩
      · intro k v hv
        rw [hkey, hv]
        rfl
      · intro k v hsv hov
        rw [hkey, hsv, hov]
        rfl
      · intro k hsv hov h1 h2
        rw [hkey, hsv, hov, getStateBase_some_getKey c base k hb h2,
          getStateSt1_other c k h1]
        rfl
      · intro fd hf hsv hov
        rw [hkey, hsv, hov,
          getStateBase_some_getKey c base _ hb (by decide),
          getStateSt1_form c fd hf]
        rfl
      · intro hf hsv hov
        rw [hkey, hsv, hov, getStateBase_some_getKey c base _ hb (by decide)]
        show getKey (getStateSt1 c) "form" = _
        simp [getStateSt1, hf]
      · intro ids hfork hsv hov hids
        rw [hkey, hsv, hov]
        rcases getStateBase_shape c base hb with ⟨hnf, _⟩ | ⟨_, ids', hids', rfl⟩
        · exact absurd hfork hnf
        · rw [hids'] at hids
          rw [getKey_setKey, if_pos rfl, Option.some.inj hids]
          rfl
      · intro hfork hsv hov
        rw [hkey, hsv, hov]
        rcases getStateBase_shape c base hb with ⟨_, rfl⟩ | ⟨hf', _⟩
        · show getKey (getStateSt1 c) "pendingOutbound" = _
          exact getStateSt1_other c _ (by decide)
        · exact absurd hf' hfork

/-- Witness for C7, realizing the spec scenario: `setState({x: 1})` then
`getState({y: 2})` succeeds (live pending edges) and yields a mapping with
`x = 1` (overriding the activity's own `x = 0`) and `y = 2`. -/
theorem getState_spec_w :
    ∃ st c2, getState (setState cFork (Value.obj [("x", Value.num 1)]))
        (Value.obj [("y", Value.num 2)]) = some (st, c2) ∧
      getKey (objFields st) "x" = some (Value.num 1) ∧
      getKey (objFields st) "y" = some (Value.num 2) := by
  have h := getState_spec (setState cFork (Value.obj [("x", Value.num 1)]))
      (Value.obj [("y", Value.num 2)])
  rcases h.1 (Or.inr (by decide)) with ⟨st, c2, hok⟩
  have hc := h.2.2 st c2 hok
  exact ⟨st, c2, hok, hc.1 "x" (Value.num 1) rfl, hc.2.1 "y" (Value.num 2) rfl rfl⟩

/-! ### C8 — state snapshot / restore round-trip for pending outbound -/

/-- Every entry of the pending-outbound list is a live outbound edge,
provided any pre-set cache already satisfies that. -/
theorem getPendingOutbound_entries_live (c : Ctx)
    (hcache : ∀ l, c.pendingOutbound = some l →
      ∀ x ∈ l, ∃ g, x = some g ∧ g ∈ c.activity.outbound) :
    ∀ x ∈ (getPendingOutbound c).1, ∃ g, x = some g ∧ g ∈ c.activity.outbound := by
  cases hpo : c.pendingOutbound with
  | some l =>
    rw [getPendingOutbound_cached c l hpo]
    exact hcache l hpo
  | none =>
    rw [getPendingOutbound_fst_compute c hpo]
    intro x hx
    rcases List.mem_map.mp hx with ⟨g, hg, rfl⟩
    refine ⟨g, rfl, ?_⟩
    by_cases hlen : 1 < c.activity.outbound.length
    · rw [if_pos hlen] at hg
      cases hd : c.activity.outbound.find? (fun fl => fl.isDefault) with
      | some d =>
        simp only [hd] at hg
        rcases List.mem_append.mp hg with h | h
        · exact List.mem_of_mem_erase h
        · rw [List.mem_singleton.mp h]
          exact List.mem_of_find?_eq_some hd
      | none =>
        simp only [hd] at hg
        exact hg
    · rw [if_neg hlen] at hg
      exact hg

/-- Mapping a pending list of live edges to its identifiers succeeds, and
re-resolving each identifier against the live outbound list recovers an
edge with the same identifier, position by position. -/
theorem flowIdsValue_of_live (outbound : List Flow) :
    ∀ l : List (Option Flow), (∀ x ∈ l, ∃ g, x = some g ∧ g ∈ outbound) →
    ∃ ids, flowIdsValue l = some ids ∧
      (ids.map (fun x => outbound.find? (fun fl => matchesId fl x))).map
          (Option.map Flow.id)
        = l.map (Option.map Flow.id) := by
  intro l
  induction l with
  | nil => intro _; exact ⟨[], rfl, rfl⟩
  | cons x xs ih =>
    intro hl
    rcases hl x (by simp) with ⟨g, rfl, hg⟩
    rcases ih (fun y hy => hl y (by simp [hy])) with ⟨ids, h1, h2⟩
    refine ⟨Value.str g.id :: ids, ?_, ?_⟩
    · rw [flowIdsValue_cons_some, h1]
      rfl
    · simp only [List.map_cons, List.cons.injEq]
      refine ⟨?_, h2⟩
      have hex : ∃ fl, fl ∈ outbound ∧ matchesId fl (Value.str g.id) = true :=
        ⟨g, hg, by simp [matchesId]⟩
      rcases Option.isSome_iff_exists.mp (List.find?_isSome.mpr hex) with ⟨fl, hfl⟩
      have hp := List.find?_some hfl
      simp only [matchesId, beq_iff_eq] at hp
      rw [hfl]
      simp [hp]

/-- The `applyState` with a persisted `pendingOutbound` identifier list restores
the cache by identifier lookup over the live outbound edges (whatever the
`pendingInbound` entry does), and leaves the activity untouched. -/
theorem applyState_pendingOutbound (c : Ctx) (st : Value) (xs : List Value)
    (hk : getKeyV st "pendingOutbound" = some (Value.list xs)) :
    (applyState c st).pendingOutbound
      = some (xs.map (fun x => c.activity.outbound.find? (fun fl => matchesId fl x)))
      ∧ (applyState c st).activity = c.activity := by
  cases hki : getKeyV st "pendingInbound" with
  | none => simp [applyState, hki, hk]
  | some v => cases v <;> simp [applyState, hki, hk]

/-- C8: for a context over an activity with two or more outbound edges,
`getState()` produces a snapshot, and applying it to a fresh context over
the same activity reproduces the pending-outbound ordering identifier for
identifier.  Hypotheses keep the claim inside the snapshot lifecycle:
nothing stashed via `setState` shadows the `pendingOutbound` key, and any
pre-set pending cache holds only live outbound edges. -/
theorem state_roundtrip (c : Ctx) (r2 : Nat) (m2 : Value) (e2 : Environment)
    (inF2 : Option Flow) (rootF2 : Value)
    (hfork : 1 < c.activity.outbound.length)
    (hshadow : lastVal ((c.savedState.map objFields).getD []) "pendingOutbound" = none)
    (hcache : ∀ l, c.pendingOutbound = some l →
      ∀ x ∈ l, ∃ g, x = some g ∧ g ∈ c.activity.outbound) :
    ∃ st c2, getState c Value.undefined = some (st, c2) ∧
      (getPendingOutbound (applyState
          (execution r2 c.activity m2 e2 inF2 rootF2) st)).1.map (Option.map Flow.id)
        = (getPendingOutbound c).1.map (Option.map Flow.id) := by
  rcases flowIdsValue_of_live c.activity.outbound (getPendingOutbound c).1
      (getPendingOutbound_entries_live c hcache) with ⟨ids, hids, hrestore⟩
  have hok := getState_some c Value.undefined _ (getStateBase_fork c hfork ids hids)
  refine ⟨_, _, hok, ?_⟩
  have hkey : getKeyV (Value.obj (assign (assign
      (setKey (getStateSt1 c) "pendingOutbound" (Value.list ids))
      (objFields Value.undefined))
      ((c.savedState.map objFields).getD []))) "pendingOutbound"
      = some (Value.list ids) := by
    show getKey (assign (assign
      (setKey (getStateSt1 c) "pendingOutbound" (Value.list ids))
      (objFields Value.undefined))
      ((c.savedState.map objFields).getD [])) "pendingOutbound" = _
    rw [getKey_assign, hshadow, getKey_assign]
    have h0 : lastVal (objFields Value.undefined) "pendingOutbound" = none := rfl
    rw [h0, getKey_setKey, if_pos rfl]
    rfl
  have happ := applyState_pendingOutbound (execution r2 c.activity m2 e2 inF2 rootF2)
      _ ids hkey
  rw [getPendingOutbound_cached _ _ happ.1]
  exact hrestore

/-- Witness for C8: the fork-point fixture snapshots successfully and
round-trips to the identifier sequence `A, C, B`. -/
theorem state_roundtrip_w :
    ∃ st c2, getState cFork Value.undefined = some (st, c2) ∧
      (getPendingOutbound (applyState
          (execution 1 cFork.activity loopMsgSeq envW none Value.undefined) st)).1.map
            (Option.map Flow.id)
        = (getPendingOutbound cFork).1.map (Option.map Flow.id) :=
  state_roundtrip cFork 1 loopMsgSeq envW none Value.undefined (by decide) rfl
    (fun _ hl => Option.noConfusion hl)

/-! ### C9 — applyState and identifiers matching no live edge -/

theorem getPendingInbound_cached (c : Ctx) (l : List (Option Flow))
    (h : c.pendingInbound = some l) : getPendingInbound c = (l, c) := by
  simp only [getPendingInbound, h]

/-- C9 counterexample: the claim that `applyState` silently *drops* an
identifier matching no live edge, leaving exactly the matching live edges,
is false on the code: `inbound.find` maps the stale identifier to
`undefined` and `Array.map` keeps that placeholder, so restoring
`["A", "nope"]` against live inbound `[A]` yields `[A, undefined]`, not
`[A]`. -/
theorem applyState_keeps_placeholder :
    (getPendingInbound (applyState cOneIn
        (Value.obj [("pendingInbound", Value.list [Value.str "A", Value.str "nope"])]))).1
      = [some fA, none] ∧
    ([some fA, none] : List (Option Flow)) ≠ [some fA] :=
  ⟨by decide, by decide⟩

/-- The `applyState` with a persisted `pendingInbound` identifier list restores
the cache by identifier lookup over the live inbound edges. -/
theorem applyState_pendingInbound (c : Ctx) (st : Value) (xs : List Value)
    (hk : getKeyV st "pendingInbound" = some (Value.list xs)) :
    (applyState c st).pendingInbound
      = some (xs.map (fun x => c.activity.inbound.find? (fun fl => matchesId fl x))) := by
  cases hko : getKeyV st "pendingOutbound" with
  | none => simp [applyState, hk, hko]
  | some v => cases v <;> simp [applyState, hk, hko]

/-- C9 amended: `applyState` raises no error on persisted `pendingInbound`
or `pendingOutbound` identifier lists containing identifiers that match no
live edge, but it does not drop them: each restored pending list has one
entry per persisted identifier (same length), an entry is `undefined`
exactly when no live edge on that side carries the identifier, and every
restored edge is a live edge carrying the persisted identifier. -/
theorem applyState_unmatched_kept (c : Ctx) (st : Value) :
    (∀ ids, getKeyV st "pendingInbound" = some (Value.list ids) →
      ∃ l, (applyState c st).pendingInbound = some l ∧
        (getPendingInbound (applyState c st)).1 = l ∧
        l.length = ids.length ∧
        (∀ i, ∀ _ : i < ids.length, ∀ hl : i < l.length,
          (l[i] = none ↔ ∀ fl ∈ c.activity.inbound, matchesId fl ids[i] ≠ true) ∧
          (∀ g, l[i] = some g → g ∈ c.activity.inbound ∧ matchesId g ids[i] = true))) ∧
    (∀ ids, getKeyV st "pendingOutbound" = some (Value.list ids) →
      ∃ l, (applyState c st).pendingOutbound = some l ∧
        (getPendingOutbound (applyState c st)).1 = l ∧
        l.length = ids.length ∧
        (∀ i, ∀ _ : i < ids.length, ∀ hl : i < l.length,
          (l[i] = none ↔ ∀ fl ∈ c.activity.outbound, matchesId fl ids[i] ≠ true) ∧
          (∀ g, l[i] = some g → g ∈ c.activity.outbound ∧ matchesId g ids[i] = true))) := by
  constructor
  · intro ids hkey
    have happ := applyState_pendingInbound c st ids hkey
    refine ⟨ids.map (fun x => c.activity.inbound.find? (fun fl => matchesId fl x)),
      happ, ?_, by simp, ?_⟩
    · rw [getPendingInbound_cached _ _ happ]
    · intro i hi hl
      rw [List.getElem_map]
      constructor
      · exact ⟨fun h fl hfl => by
          have := List.find?_eq_none.mp h fl hfl
          simpa using this,
        fun h => List.find?_eq_none.mpr (fun fl hfl => by simpa using h fl hfl)⟩
      · intro g hg
        have hp := List.find?_some hg
        exact ⟨List.mem_of_find?_eq_some hg, hp⟩
  · intro ids hkey
    have happ := applyState_pendingOutbound c st ids hkey
    refine ⟨ids.map (fun x => c.activity.outbound.find? (fun fl => matchesId fl x)),
      happ.1, ?_, by simp, ?_⟩
    · rw [getPendingOutbound_cached _ _ happ.1]
    · intro i hi hl
      rw [List.getElem_map]
      constructor
      · exact ⟨fun h fl hfl => by
          have := List.find?_eq_none.mp h fl hfl
          simpa using this,
        fun h => List.find?_eq_none.mpr (fun fl hfl => by simpa using h fl hfl)⟩
      · intro g hg
        have hp := List.find?_some hg
        exact ⟨List.mem_of_find?_eq_some hg, hp⟩

/-- Witness for the amended C9: restoring `["A", "nope"]` (inbound) and
`["A", "bogus"]` (outbound) against live edge lists `[A]` keeps two entries
on each side — the live edge `A` and an `undefined` placeholder. -/
theorem applyState_unmatched_kept_w :
    (∃ l, (applyState cOneIn stBoth).pendingInbound = some l ∧
      (getPendingInbound (applyState cOneIn stBoth)).1 = l ∧
      l.length = [Value.str "A", Value.str "nope"].length ∧
      (∀ i, ∀ _ : i < [Value.str "A", Value.str "nope"].length, ∀ hl : i < l.length,
        (l[i] = none ↔ ∀ fl ∈ cOneIn.activity.inbound,
          matchesId fl [Value.str "A", Value.str "nope"][i] ≠ true) ∧
        (∀ g, l[i] = some g → g ∈ cOneIn.activity.inbound ∧
          matchesId g [Value.str "A", Value.str "nope"][i] = true))) ∧
    (∃ l, (applyState cOneIn stBoth).pendingOutbound = some l ∧
      (getPendingOutbound (applyState cOneIn stBoth)).1 = l ∧
      l.length = [Value.str "A", Value.str "bogus"].length ∧
      (∀ i, ∀ _ : i < [Value.str "A", Value.str "bogus"].length, ∀ hl : i < l.length,
        (l[i] = none ↔ ∀ fl ∈ cOneIn.activity.outbound,
          matchesId fl [Value.str "A", Value.str "bogus"][i] ≠ true) ∧
        (∀ g, l[i] = some g → g ∈ cOneIn.activity.outbound ∧
          matchesId g [Value.str "A", Value.str "bogus"][i] = true))) :=
  ⟨(applyState_unmatched_kept cOneIn stBoth).1 [Value.str "A", Value.str "nope"] rfl,
   (applyState_unmatched_kept cOneIn stBoth).2 [Value.str "A", Value.str "bogus"] rfl⟩

end ActivityExec
